import Mathlib

/-! # frakti: request translation and stream relay

A shallow embedding of the translation layer of `pkg/manager/image.go` and of the
streaming calls of `pkg/hyper/hyper.go`, with the properties proved about them.

Conventions of the embedding

* A Go `string` is a list of characters (`GoString`).  The only separators the code
  searches for ("@", ":" and "/") are single ASCII bytes, so searching by character and
  searching by byte find the same positions.
* A Go `[]byte` is a list of bytes (`Bytes`).
* A Go pointer that may be `nil` is an `Option`.
* A Go `error` is an `Option Error`, `none` being `nil`.
* A call of the program ends in one of three ways, see `Run`.
-/

set_option autoImplicit false

/-! ## Basic types -/

/-- Go `string`. -/
abbrev GoString := List Char

/-- Go `byte`. -/
abbrev Byte := Fin 256

/-- Go `[]byte`. -/
abbrev Bytes := List Byte

/-- Go `error` values that the code tells apart: the two sentinels `io.EOF` and
`io.ErrShortWrite`, and every other error, identified by its message. -/
inductive Error where
  | EOF
  | ErrShortWrite
  | other (msg : String)
  deriving DecidableEq, Repr

/-- How a call ends: it returns a value, it panics (nil dereference, index out of
range), or it never returns because it waits on a stream that delivers nothing more. -/
inductive Run (α : Type) where
  | returned (a : α)
  | panicked
  | blocked
  deriving DecidableEq, Repr

/-! ## The `strings` functions used by the code -/

namespace strings

/-- Position of the first `c` in `s`, counted from `i`; `-1` when there is none. -/
def indexFrom (c : Char) : GoString → Nat → Int
  | [], _ => -1
  | x :: xs, i => if x = c then (i : Int) else indexFrom c xs (i + 1)

/-- Go `strings.Index(s, sep)` for a one-byte separator. -/
def Index (s : GoString) (c : Char) : Int :=
  indexFrom c s 0

/-- Position of the last `c` in `s`, counted from `i`; `acc` when there is none. -/
def lastIndexFrom (c : Char) : GoString → Nat → Int → Int
  | [], _, acc => acc
  | x :: xs, i, acc => lastIndexFrom c xs (i + 1) (if x = c then (i : Int) else acc)

/-- Go `strings.LastIndex(s, sep)` for a one-byte separator. -/
def LastIndex (s : GoString) (c : Char) : Int :=
  lastIndexFrom c s 0 (-1)

/-- Go `strings.Contains(s, sep)` for a one-byte separator. -/
def Contains (s : GoString) (c : Char) : Bool :=
  decide (Index s c ≥ 0)

/-- Go `strings.Split(s, sep)` for a one-byte separator: the pieces of `s` between
the occurrences of `c`; a string without `c` is one piece. -/
def Split (c : Char) : GoString → List GoString
  | [] => [[]]
  | x :: xs =>
    if x = c then [] :: Split c xs
    else
      match Split c xs with
      | [] => [[x]]
      | p :: ps => (x :: p) :: ps

end strings

/-! ## `pkg/manager/image.go`: repository references -/

/-- Go `parseRepositoryTag`.  `none` is the index-out-of-range panic of `parts[0]` or
`parts[1]`; the slices `repos[n+1:]` and `repos[:n]` are within bounds by `n < len`. -/
def parseRepositoryTag (repos : GoString) : Option (GoString × GoString) :=
  let n := strings.Index repos '@'
  if n ≥ 0 then
    let parts := strings.Split '@' repos
    match parts[0]?, parts[1]? with
    | some p0, some p1 => some (p0, p1)
    | _, _ => none
  else
    let n := strings.LastIndex repos ':'
    if n < 0 then some (repos, [])
    else
      let tag := repos.drop (n + 1).toNat
      if !strings.Contains tag '/' then some (repos.take n.toNat, tag)
      else some (repos, [])

/-! ## `pkg/manager/image.go`: auth config -/

namespace kubeapi

/-- Orchestrator `kubeapi.AuthConfig`: every field is a `*string`. -/
structure AuthConfig where
  Username : Option GoString
  Password : Option GoString
  Auth : Option GoString
  ServerAddress : Option GoString
  RegistryToken : Option GoString
  deriving DecidableEq, Repr

/-- Orchestrator `kubeapi.ImageSpec`. -/
structure ImageSpec where
  Image : Option GoString
  deriving DecidableEq, Repr

/-- Orchestrator `kubeapi.ImageFilter`. -/
structure ImageFilter where
  Image : Option ImageSpec
  deriving DecidableEq, Repr

/-- Orchestrator `kubeapi.ListImagesRequest`. -/
structure ListImagesRequest where
  Filter : Option ImageFilter
  deriving DecidableEq, Repr

/-- Orchestrator `kubeapi.Image`: `Id` is a `*string`, `Size_` a `*uint64`. -/
structure Image where
  Id : Option GoString
  RepoTags : List GoString
  RepoDigests : List GoString
  Size_ : Option Nat
  deriving DecidableEq, Repr

/-- Orchestrator `kubeapi.ListImagesResponse`. -/
structure ListImagesResponse where
  Images : List Image
  deriving DecidableEq, Repr

/-- Orchestrator `kubeapi.PullImageRequest`. -/
structure PullImageRequest where
  Image : Option ImageSpec
  Auth : Option AuthConfig
  deriving DecidableEq, Repr

/-- Orchestrator `kubeapi.PullImageResponse`: it has no field the code sets. -/
structure PullImageResponse where
  deriving DecidableEq, Repr

end kubeapi

namespace types

/-- Backend `types.AuthConfig`, the fields `getHyperAuthConfig` can write; every field
is a plain `string`, whose zero value is the empty string. -/
structure AuthConfig where
  Username : GoString := []
  Password : GoString := []
  Auth : GoString := []
  Serveraddress : GoString := []
  Registrytoken : GoString := []
  deriving DecidableEq, Repr

/-- Backend `types.ImageInfo`, the fields `ListImages` reads; `VirtualSize` is an
`int64`, held as the integer it denotes. -/
structure ImageInfo where
  Id : GoString
  RepoTags : List GoString
  RepoDigests : List GoString
  VirtualSize : Int
  deriving DecidableEq, Repr

/-- Backend `types.ImagePullRequest`. -/
structure ImagePullRequest where
  Image : GoString
  Tag : GoString
  Auth : Option AuthConfig
  deriving DecidableEq, Repr

/-- Backend `types.ImagePullResponse`. -/
structure ImagePullResponse where
  Data : Bytes
  deriving DecidableEq, Repr

/-- Backend `types.ContainerLogsRequest`. -/
structure ContainerLogsRequest where
  Container : GoString
  Follow : Bool
  Timestamps : Bool
  Tail : GoString
  Since : GoString
  Stdout : Bool
  Stderr : Bool
  deriving DecidableEq, Repr

/-- Backend `types.ContainerLogsResponse`. -/
structure ContainerLogsResponse where
  Log : Bytes
  deriving DecidableEq, Repr

/-- Backend `types.ContainerExecRequest`; a nil `Command` or `Stdin` is the empty
list. -/
structure ContainerExecRequest where
  ContainerID : GoString := []
  Command : List GoString := []
  Tag : GoString := []
  Tty : Bool := false
  Stdin : Bytes := []
  deriving DecidableEq, Repr

/-- Backend `types.ContainerExecResponse`; `Stdout` is `none` for a nil slice, which
the relay tells apart from an empty one. -/
structure ContainerExecResponse where
  Stdout : Option Bytes
  deriving DecidableEq, Repr

end types

/-- Go `getHyperAuthConfig`: a nil input gives nil; otherwise the five fields are
assigned one after the other, each under its own nil test. -/
def getHyperAuthConfig (auth : Option kubeapi.AuthConfig) : Option types.AuthConfig :=
  match auth with
  | none => none
  | some auth =>
    let config : types.AuthConfig := {}
    let config := match auth.Username with
      | some v => { config with Username := v }
      | none => config
    let config := match auth.Password with
      | some v => { config with Password := v }
      | none => config
    let config := match auth.Auth with
      | some v => { config with Auth := v }
      | none => config
    let config := match auth.RegistryToken with
      | some v => { config with Registrytoken := v }
      | none => config
    let config := match auth.ServerAddress with
      | some v => { config with Serveraddress := v }
      | none => config
    some config

/-! ## `pkg/manager/image.go`: image list -/

namespace utils

/-- Modelled from the spec: `utils.InList` of `k8s.io/frakti/pkg/utils`, which is not
among the sources; the spec reads it as "the filter string is present among its
repository tags". -/
def InList (s : GoString) (list : List GoString) : Bool :=
  decide (s ∈ list)

end utils

/-- Go conversion `uint64(v)` of an `int64`: the value modulo `2^64`. -/
def uint64 (v : Int) : Nat :=
  (v % 2 ^ 64).toNat

namespace KubeHyperManager

/-- The `for _, img := range images` loop of `ListImages`, `results` being the slice
built so far. -/
def listImagesLoop (filter : GoString) : List types.ImageInfo → List kubeapi.Image → List kubeapi.Image
  | [], results => results
  | img :: rest, results =>
    if img.Id = filter then listImagesLoop filter rest results
    else if utils.InList filter img.RepoTags then listImagesLoop filter rest results
    else
      let imageSize := uint64 img.VirtualSize
      listImagesLoop filter rest (results ++ [{
        Id := some img.Id,
        RepoTags := img.RepoTags,
        RepoDigests := img.RepoDigests,
        Size_ := some imageSize }])

/-- Go `KubeHyperManager.ListImages`.  `GetImageList` is the answer of the backend
list call, whose entries are non-nil.  The filter is dereferenced before the backend
is called, and a nil pointer on the way to it panics. -/
def ListImages (GetImageList : Except Error (List types.ImageInfo))
    (req : kubeapi.ListImagesRequest) :
    Run (Option kubeapi.ListImagesResponse × Option Error) :=
  match req.Filter with
  | none => .panicked
  | some f =>
    match f.Image with
    | none => .panicked
    | some spec =>
      match spec.Image with
      | none => .panicked
      | some filter =>
        match GetImageList with
        | .error err => .returned (none, some err)
        | .ok images =>
          let results := listImagesLoop filter images []
          .returned (some { Images := results }, none)

end KubeHyperManager

/-! ## `pkg/hyper/hyper.go`: streams, readers and writers -/

/-- What one `stream.Recv()` call gives back: the message pointer and the error. -/
structure RecvResult (α : Type) where
  msg : Option α
  err : Option Error
  deriving DecidableEq, Repr

namespace RecvResult

/-- A receive that delivers the message `m`. -/
def deliver {α : Type} (m : α) : RecvResult α :=
  { msg := some m, err := none }

/-- A receive that reports the clean end of the stream. -/
def eof {α : Type} : RecvResult α :=
  { msg := none, err := some Error.EOF }

/-- A receive that fails with the error `e`. -/
def fail {α : Type} (e : Error) : RecvResult α :=
  { msg := none, err := some e }

end RecvResult

/-- An `io.Writer`, by what it answers: `w earlier p` is the pair `(n, err)` that
`Write(p)` returns when `earlier` are the payloads of the calls made before. -/
abbrev GoWriter := List Bytes → Bytes → Int × Option Error

/-- What one `stdin.Read(buf)` call on the 32-byte buffer gives back: the count `nr`,
the error, and the content of the buffer after the call. -/
structure ReadResult where
  nr : Int
  err : Option Error
  buf : Fin 32 → Byte

/-- An `io.ReadCloser`, by the results of its successive `Read` calls. -/
abbrev GoReader := List ReadResult

/-- Where one pass through a `for` body leaves the loop: at its next iteration, or
out of it with the outcome of the enclosing function (`return`, `break` followed by
the final `return`, or a panic).  `s` is the state of the loop variables. -/
inductive Step (σ α : Type) where
  | next (s : σ)
  | stop (s : σ) (r : Run α)

/-- A `for { x := blockingCall(); body }` loop run over the successive results of the
blocking call; when no result is left the call never returns and the loop is
blocked. -/
def forLoop {ε σ α : Type} (body : ε → σ → Step σ α) : List ε → σ → σ × Run α
  | [], s => (s, .blocked)
  | e :: rest, s =>
    match body e s with
    | .next s1 => forLoop body rest s1
    | .stop s1 r => (s1, r)

namespace HyperClient

/-! ### `GetContainerLogs` -/

/-- Body of the receive loop of `GetContainerLogs`; the state is `ret`. -/
def logsBody (follow : Bool) (ev : RecvResult types.ContainerLogsResponse) (ret : Bytes) :
    Step Bytes (Option Bytes × Option Error) :=
  if ev.err = some Error.EOF then
    if follow = true then .next ret
    else .stop ret (.returned (some ret, none))
  else if ev.err ≠ none then .stop ret (.returned (none, ev.err))
  else
    match ev.msg with
    | none => .stop ret .panicked
    | some res => .next (ret ++ res.Log)

/-- Go `HyperClient.GetContainerLogs`.  `ContainerLogs` is the backend call: it fails
or opens a stream, given by its successive receives. -/
def GetContainerLogs
    (ContainerLogs : types.ContainerLogsRequest →
      Except Error (List (RecvResult types.ContainerLogsResponse)))
    (container : GoString) : Run (Option Bytes × Option Error) :=
  let req : types.ContainerLogsRequest := {
    Container := container,
    Follow := false,
    Timestamps := false,
    Tail := [],
    Since := [],
    Stdout := true,
    Stderr := true }
  match ContainerLogs req with
  | .error err => .returned (none, some err)
  | .ok stream => (forLoop (logsBody req.Follow) stream []).2

/-! ### `PullImage` -/

/-- Outcome of `HyperClient.PullImage`: the request handed to the backend, the
payloads written to `out`, and how the call ends. -/
structure PullOutcome where
  request : types.ImagePullRequest
  writes : List Bytes
  run : Run (Option Error)

/-- Body of the receive loop of `PullImage`; the state is the list of payloads written
to `out` so far. -/
def pullBody (out : Option GoWriter) (ev : RecvResult types.ImagePullResponse)
    (written : List Bytes) : Step (List Bytes) (Option Error) :=
  if ev.err = some Error.EOF then .stop written (.returned none)
  else if ev.err ≠ none then .stop written (.returned ev.err)
  else
    match out with
    | none => .next written
    | some w =>
      match ev.msg with
      | none => .stop written .panicked
      | some res =>
        let r := w written res.Data
        if r.2 ≠ none then .stop (written ++ [res.Data]) (.returned r.2)
        else if r.1 ≠ (res.Data.length : Int) then
          .stop (written ++ [res.Data]) (.returned (some Error.ErrShortWrite))
        else .next (written ++ [res.Data])

/-- Go `HyperClient.PullImage`.  `ImagePull` is the backend call: it fails or opens a
stream, given by its successive receives. -/
def PullImage
    (ImagePull : types.ImagePullRequest →
      Except Error (List (RecvResult types.ImagePullResponse)))
    (image tag : GoString) (auth : Option types.AuthConfig) (out : Option GoWriter) :
    PullOutcome :=
  let request : types.ImagePullRequest := { Image := image, Tag := tag, Auth := auth }
  match ImagePull request with
  | .error err => { request := request, writes := [], run := .returned (some err) }
  | .ok stream =>
    let r := forLoop (pullBody out) stream []
    { request := request, writes := r.1, run := r.2 }

end HyperClient

namespace KubeHyperManager

/-- Outcome of `KubeHyperManager.PullImage`: the request that reached the backend, if
the call got that far, and how the call ends. -/
structure PullImageOutcome where
  request : Option types.ImagePullRequest
  run : Run (Option kubeapi.PullImageResponse × Option Error)

/-- Go `KubeHyperManager.PullImage`. -/
def PullImage
    (ImagePull : types.ImagePullRequest →
      Except Error (List (RecvResult types.ImagePullResponse)))
    (req : kubeapi.PullImageRequest) : PullImageOutcome :=
  match req.Image with
  | none => { request := none, run := .panicked }
  | some spec =>
    match spec.Image with
    | none => { request := none, run := .panicked }
    | some image =>
      match parseRepositoryTag image with
      | none => { request := none, run := .panicked }
      | some (repo, tag) =>
        let auth := getHyperAuthConfig req.Auth
        let r := HyperClient.PullImage ImagePull repo tag auth none
        { request := some r.request,
          run := match r.run with
            | .returned (some err) => .returned (none, some err)
            | .returned none => .returned (some {}, none)
            | .panicked => .panicked
            | .blocked => .blocked }

end KubeHyperManager

namespace HyperClient

/-! ### `ContainerExec` -/

/-- The duplex channel of an exec session: what `Send(m)` answers when `sent` are the
messages sent before, and the results of the successive `Recv` calls. -/
structure ExecStream where
  Send : List types.ContainerExecRequest → types.ContainerExecRequest → Option Error
  recvs : List (RecvResult types.ContainerExecResponse)

/-- Body of the loop of the output-draining task; the state is the list of payloads
passed to `stdout.Write` so far.  A call of `Write` on a nil `stdout` panics. -/
def recvBody (stdout : Option GoWriter) (ev : RecvResult types.ContainerExecResponse)
    (written : List Bytes) : Step (List Bytes) (Option Error) :=
  if ev.err ≠ none ∧ ev.err ≠ some Error.EOF then .stop written (.returned ev.err)
  else
    let afterWrite (written : List Bytes) : Step (List Bytes) (Option Error) :=
      if ev.err = some Error.EOF then .stop written (.returned none)
      else .next written
    match ev.msg with
    | none => afterWrite written
    | some msg =>
      match msg.Stdout with
      | none => afterWrite written
      | some payload =>
        match stdout with
        | none => .stop written .panicked
        | some w =>
          let r := w written payload
          if r.2 ≠ none then .stop (written ++ [payload]) (.returned r.2)
          else if r.1 ≠ (payload.length : Int) then
            .stop (written ++ [payload]) (.returned (some Error.ErrShortWrite))
          else afterWrite (written ++ [payload])

/-- Body of the loop of the input-forwarding task; the state is the list of messages
sent on the channel so far.  The slice `buf[:nr]` of the 32-byte buffer panics when
`nr` exceeds 32. -/
def sendBody (Send : List types.ContainerExecRequest → types.ContainerExecRequest → Option Error)
    (rd : ReadResult) (sent : List types.ContainerExecRequest) :
    Step (List types.ContainerExecRequest) (Option Error) :=
  let afterSend (sent : List types.ContainerExecRequest) :
      Step (List types.ContainerExecRequest) (Option Error) :=
    if rd.err = some Error.EOF then .stop sent (.returned none)
    else if rd.err ≠ none then .stop sent (.returned rd.err)
    else .next sent
  if rd.nr > 0 then
    if rd.nr > 32 then .stop sent .panicked
    else
      let m : types.ContainerExecRequest := { Stdin := (List.ofFn rd.buf).take rd.nr.toNat }
      match Send sent m with
      | some err => .stop (sent ++ [m]) (.returned (some err))
      | none => afterSend (sent ++ [m])
  else afterSend sent

/-- An operation on the send side of the channel: `stream.Send(m)` or
`stream.CloseSend()`. -/
inductive ChannelOp where
  | send (m : types.ContainerExecRequest)
  | closeSend
  deriving DecidableEq, Repr

/-- How the input-forwarding task fares: it is not started (nil `stdin`), it ends in
the way `r`, or the process is killed by a panic of the output-draining task while it
may be under way, in which case how far it got is not determined. -/
inductive InputTask where
  | notStarted
  | ended (r : Run (Option Error))
  | killed
  deriving DecidableEq, Repr

/-- Outcome of `ContainerExec`: how the call ends, the payloads passed to
`stdout.Write` in call order, the operations made on the send side of the channel in
the order they are made (`none` when the process is killed while the input-forwarding
task may be under way, so that the operations of that task are not determined), and
how the input-forwarding task fares. -/
structure ExecOutcome where
  run : Run (Option Error)
  writes : List Bytes
  channel : Option (List ChannelOp)
  input : InputTask

/-- Go `HyperClient.ContainerExec`.  `ContainerExec` is the backend call that opens
the channel.  The initial request is sent before either task is started.  The two
tasks share the channel only: one sends, the other receives.  The call returns what
the output-draining task yields and does not wait for the input-forwarding task.

The input-forwarding task sends from its loop and, by its `defer`, calls `CloseSend`
when it ends, after every send it made; a task that stays blocked in `Read` never
closes.  A panic of the output-draining task kills the process, and with it the
input-forwarding task at a point that the program does not determine.  A read count
above 32 breaks the `io.Reader` contract: the panic of the slice is recorded in
`input`, and `run` and `writes` are those of a session whose reader honours the
contract. -/
def ContainerExec (ContainerExec : Except Error ExecStream)
    (container tag : GoString) (command : List GoString) (tty : Bool)
    (stdin : Option GoReader) (stdout stderr : Option GoWriter) : ExecOutcome :=
  let request : types.ContainerExecRequest := {
    ContainerID := container,
    Command := command,
    Tag := tag,
    Tty := tty }
  match ContainerExec with
  | .error err =>
    { run := .returned (some err), writes := [], channel := some [], input := .notStarted }
  | .ok stream =>
    match stream.Send [] request with
    | some err =>
      { run := .returned (some err), writes := [], channel := some [.send request],
        input := .notStarted }
    | none =>
      let recvStdoutError : Option (List Bytes × Run (Option Error)) :=
        if stdout.isSome ∨ stderr.isSome then some (forLoop (recvBody stdout) stream.recvs [])
        else none
      let forward : Option (List types.ContainerExecRequest × Run (Option Error)) :=
        match stdin with
        | some rd => some (forLoop (sendBody stream.Send) rd [request])
        | none => none
      let killed : Bool :=
        match recvStdoutError with
        | some (_, .panicked) => true
        | _ => false
      { run := match recvStdoutError with
          | some r => r.2
          | none => .returned none,
        writes := match recvStdoutError with
          | some r => r.1
          | none => [],
        channel := match forward with
          | none => some [.send request]
          | some f =>
            if killed then none
            else
              match f.2 with
              | .blocked => some (f.1.map .send)
              | _ => some (f.1.map .send ++ [.closeSend]),
        input := match forward with
          | none => .notStarted
          | some f => if killed then .killed else .ended f.2 }

end HyperClient

/-! # Properties -/

/-! ## The `strings` functions -/

namespace strings

theorem indexFrom_of_not_mem (c : Char) (s : GoString) (i : Nat) (h : c ∉ s) :
    indexFrom c s i = -1 := by
  induction s generalizing i with
  | nil => rfl
  | cons x xs ih =>
    have hx : x ≠ c := fun e => h (by simp [e])
    have hxs : c ∉ xs := fun e => h (by simp [e])
    simp [indexFrom, hx, ih (i + 1) hxs]

theorem indexFrom_nonneg_of_mem (c : Char) (s : GoString) (i : Nat) (h : c ∈ s) :
    0 ≤ indexFrom c s i := by
  induction s generalizing i with
  | nil => simp at h
  | cons x xs ih =>
    by_cases hx : x = c
    · simp [indexFrom, hx]
    · have hxs : c ∈ xs := by
        rcases List.mem_cons.mp h with e | e
        · exact absurd e.symm hx
        · exact e
      simp only [indexFrom, hx, if_false]
      exact ih (i + 1) hxs

theorem Index_nonneg_iff (c : Char) (s : GoString) : 0 ≤ Index s c ↔ c ∈ s := by
  constructor
  · intro h
    by_contra hc
    have := indexFrom_of_not_mem c s 0 hc
    unfold Index at h
    omega
  · exact indexFrom_nonneg_of_mem c s 0

theorem Contains_iff (c : Char) (s : GoString) : Contains s c = true ↔ c ∈ s := by
  simp [Contains, Index_nonneg_iff]

theorem lastIndexFrom_of_not_mem (c : Char) (s : GoString) (i : Nat) (acc : Int)
    (h : c ∉ s) : lastIndexFrom c s i acc = acc := by
  induction s generalizing i acc with
  | nil => rfl
  | cons x xs ih =>
    have hx : x ≠ c := fun e => h (by simp [e])
    have hxs : c ∉ xs := fun e => h (by simp [e])
    simp [lastIndexFrom, hx, ih (i + 1) acc hxs]

theorem lastIndexFrom_append (c : Char) (pre post : GoString) (i : Nat) (acc : Int)
    (h : c ∉ post) :
    lastIndexFrom c (pre ++ c :: post) i acc = ((i + pre.length : Nat) : Int) := by
  induction pre generalizing i acc with
  | nil => simp [lastIndexFrom, lastIndexFrom_of_not_mem c post (i + 1) _ h]
  | cons x xs ih =>
    have e := ih (i + 1) (if x = c then (i : Int) else acc)
    show lastIndexFrom c (xs ++ c :: post) (i + 1) (if x = c then (i : Int) else acc)
      = ((i + (xs.length + 1) : Nat) : Int)
    rw [e]
    congr 1
    omega

theorem LastIndex_of_not_mem (c : Char) (s : GoString) (h : c ∉ s) : LastIndex s c = -1 :=
  lastIndexFrom_of_not_mem c s 0 (-1) h

theorem LastIndex_append (c : Char) (pre post : GoString) (h : c ∉ post) :
    LastIndex (pre ++ c :: post) c = (pre.length : Int) := by
  unfold LastIndex
  rw [lastIndexFrom_append c pre post 0 (-1) h]
  simp

theorem Split_of_not_mem (c : Char) (s : GoString) (h : c ∉ s) : Split c s = [s] := by
  induction s with
  | nil => rfl
  | cons x xs ih =>
    have hx : x ≠ c := fun e => h (by simp [e])
    have hxs : c ∉ xs := fun e => h (by simp [e])
    simp [Split, hx, ih hxs]

theorem Split_append (c : Char) (pre rest : GoString) (h : c ∉ pre) :
    Split c (pre ++ c :: rest) = pre :: Split c rest := by
  induction pre with
  | nil => simp [Split]
  | cons x xs ih =>
    have hx : x ≠ c := fun e => h (by simp [e])
    have hxs : c ∉ xs := fun e => h (by simp [e])
    simp [Split, hx, ih hxs]

end strings

/-! ## Repository references -/

/-- In the digest branch the second piece of the split is what stands between the
first separator and the next one. -/
theorem Split_second (c : Char) (pre mid rest : GoString) (hpre : c ∉ pre) (hmid : c ∉ mid)
    (hrest : rest = [] ∨ ∃ r, rest = c :: r) :
    ∃ tl, strings.Split c (pre ++ c :: (mid ++ rest)) = pre :: mid :: tl := by
  rw [strings.Split_append c pre _ hpre]
  rcases hrest with h | ⟨r, h⟩
  · subst h
    exact ⟨[], by rw [List.append_nil, strings.Split_of_not_mem c mid hmid]⟩
  · subst h
    exact ⟨strings.Split c r, by rw [strings.Split_append c mid r hmid]⟩

/-- The digest branch of `parseRepositoryTag`. -/
theorem parseRepositoryTag_at (pre mid rest : GoString) (hpre : '@' ∉ pre) (hmid : '@' ∉ mid)
    (hrest : rest = [] ∨ ∃ r, rest = '@' :: r) :
    parseRepositoryTag (pre ++ '@' :: (mid ++ rest)) = some (pre, mid) := by
  obtain ⟨tl, htl⟩ := Split_second '@' pre mid rest hpre hmid hrest
  have hidx : strings.Index (pre ++ '@' :: (mid ++ rest)) '@' ≥ 0 :=
    (strings.Index_nonneg_iff _ _).mpr (by simp)
  simp [parseRepositoryTag, hidx, htl]

/-- C1, as amended: for every repository string that contains an '@',
`parseRepositoryTag` returns as repository the part before the first '@' and as
second result the part between the first '@' and the next '@', which is the whole
part after the first '@' when the string holds exactly one '@'. -/
theorem parseRepositoryTag_digest (s pre mid rest : GoString)
    (hs : s = pre ++ '@' :: (mid ++ rest)) (hpre : '@' ∉ pre) (hmid : '@' ∉ mid)
    (hrest : rest = [] ∨ ∃ r, rest = '@' :: r) :
    parseRepositoryTag s = some (pre, mid) := by
  subst hs
  exact parseRepositoryTag_at pre mid rest hpre hmid hrest

/-- Witness of `parseRepositoryTag_digest` on the digest example of the source
comment. -/
theorem parseRepositoryTag_digest_witness :
    '@' ∉ "localhost:5000/foo/bar".toList ∧ '@' ∉ "sha256:bc88".toList ∧
    parseRepositoryTag "localhost:5000/foo/bar@sha256:bc88".toList
      = some ("localhost:5000/foo/bar".toList, "sha256:bc88".toList) :=
  ⟨by decide, by decide,
    parseRepositoryTag_digest "localhost:5000/foo/bar@sha256:bc88".toList
      "localhost:5000/foo/bar".toList "sha256:bc88".toList [] (by decide) (by decide)
      (by decide) (Or.inl rfl)⟩

/-- C1 as stated fails on "a@b@c": the part before the first '@' is "a" and the whole
part after it is "b@c", but the second result is "b". -/
theorem parseRepositoryTag_digest_not_whole_rest :
    "a@b@c".toList = "a".toList ++ '@' :: "b@c".toList ∧ '@' ∉ "a".toList ∧
    parseRepositoryTag "a@b@c".toList = some ("a".toList, "b".toList) ∧
    parseRepositoryTag "a@b@c".toList ≠ some ("a".toList, "b@c".toList) := by
  decide

/-- C2: for every repository string without '@' that contains a ':' and whose part
after the last ':' holds no '/', `parseRepositoryTag` returns the part before the last
':' as repository and the part after it as tag. -/
theorem parseRepositoryTag_tag (s pre post : GoString) (hs : s = pre ++ ':' :: post)
    (hat : '@' ∉ s) (hlast : ':' ∉ post) (hslash : '/' ∉ post) :
    parseRepositoryTag s = some (pre, post) := by
  subst hs
  have hidx : ¬ strings.Index (pre ++ ':' :: post) '@' ≥ 0 := by
    rw [ge_iff_le, strings.Index_nonneg_iff]
    exact hat
  have hlen : strings.LastIndex (pre ++ ':' :: post) ':' = (pre.length : Int) :=
    strings.LastIndex_append ':' pre post hlast
  have hdrop : (pre ++ ':' :: post).drop (pre.length + 1) = post := by
    rw [show pre ++ ':' :: post = (pre ++ [':']) ++ post by simp]
    exact List.drop_left' (by simp)
  have hc : strings.Contains post '/' = false := by
    rw [Bool.eq_false_iff]
    intro h
    exact hslash ((strings.Contains_iff _ _).mp h)
  have h1 : ((pre.length : Int) + 1).toNat = pre.length + 1 := by omega
  have h2 : ¬ ((pre.length : Int) < 0) := by omega
  simp only [parseRepositoryTag, hidx, if_false, hlen, h1, h2, hdrop, hc, Int.toNat_ofNat,
    Bool.not_false, if_true, List.take_left]

/-- Witness of `parseRepositoryTag_tag` on the tag example of the source comment. -/
theorem parseRepositoryTag_tag_witness :
    '@' ∉ "localhost.localdomain:5000/samalba/hipache:latest".toList ∧
    ':' ∉ "latest".toList ∧ '/' ∉ "latest".toList ∧
    parseRepositoryTag "localhost.localdomain:5000/samalba/hipache:latest".toList
      = some ("localhost.localdomain:5000/samalba/hipache".toList, "latest".toList) :=
  ⟨by decide, by decide, by decide,
    parseRepositoryTag_tag "localhost.localdomain:5000/samalba/hipache:latest".toList
      "localhost.localdomain:5000/samalba/hipache".toList "latest".toList (by decide)
      (by decide) (by decide) (by decide)⟩

/-- C3: for every repository string without '@' that either holds no ':' or has a
'/' in the part after its last ':', `parseRepositoryTag` returns the whole string as
repository and the empty string as tag. -/
theorem parseRepositoryTag_whole (s : GoString) (hat : '@' ∉ s)
    (h : ':' ∉ s ∨ ∃ pre post, s = pre ++ ':' :: post ∧ ':' ∉ post ∧ '/' ∈ post) :
    parseRepositoryTag s = some (s, []) := by
  have hidx : ¬ strings.Index s '@' ≥ 0 := by
    rw [ge_iff_le, strings.Index_nonneg_iff]
    exact hat
  rcases h with h | ⟨pre, post, hs, hlast, hslash⟩
  · have hl : strings.LastIndex s ':' = -1 := strings.LastIndex_of_not_mem ':' s h
    simp [parseRepositoryTag, hidx, hl]
  · subst hs
    have hlen : strings.LastIndex (pre ++ ':' :: post) ':' = (pre.length : Int) :=
      strings.LastIndex_append ':' pre post hlast
    have hdrop : (pre ++ ':' :: post).drop (pre.length + 1) = post := by
      rw [show pre ++ ':' :: post = (pre ++ [':']) ++ post by simp]
      exact List.drop_left' (by simp)
    have hc : strings.Contains post '/' = true := (strings.Contains_iff _ _).mpr hslash
    have h1 : ((pre.length : Int) + 1).toNat = pre.length + 1 := by omega
    have h2 : ¬ ((pre.length : Int) < 0) := by omega
    simp only [parseRepositoryTag, hidx, if_false, hlen, h1, h2, hdrop, hc, Bool.not_true]
    rfl

/-- Witness of `parseRepositoryTag_whole` on a `host:port/name` string. -/
theorem parseRepositoryTag_whole_witness :
    '@' ∉ "localhost:5000/foo".toList ∧ ':' ∉ "5000/foo".toList ∧ '/' ∈ "5000/foo".toList ∧
    parseRepositoryTag "localhost:5000/foo".toList = some ("localhost:5000/foo".toList, []) :=
  ⟨by decide, by decide, by decide,
    parseRepositoryTag_whole "localhost:5000/foo".toList (by decide)
      (Or.inr ⟨"localhost".toList, "5000/foo".toList, by decide, by decide, by decide⟩)⟩

/-! ## Pull requests -/

/-- C4, as amended: for every image reference that contains an '@', the value that
`KubeHyperManager.PullImage` obtains as second result of `parseRepositoryTag` and
forwards as the `Tag` of the backend pull request is the digest part of the reference,
the text between the first '@' and the next '@' or the end; the repository before the
first '@' is forwarded as `Image`.  The forwarded `Tag` is empty only when that text
is. -/
theorem PullImage_forwards_digest
    (ImagePull : types.ImagePullRequest →
      Except Error (List (RecvResult types.ImagePullResponse)))
    (auth : Option kubeapi.AuthConfig) (image pre mid rest : GoString)
    (himage : image = pre ++ '@' :: (mid ++ rest)) (hpre : '@' ∉ pre) (hmid : '@' ∉ mid)
    (hrest : rest = [] ∨ ∃ r, rest = '@' :: r) :
    (KubeHyperManager.PullImage ImagePull
        { Image := some { Image := some image }, Auth := auth }).request
      = some { Image := pre, Tag := mid, Auth := getHyperAuthConfig auth } := by
  subst himage
  have hp := parseRepositoryTag_at pre mid rest hpre hmid hrest
  simp only [KubeHyperManager.PullImage, hp]
  cases hI : ImagePull { Image := pre, Tag := mid, Auth := getHyperAuthConfig auth } <;>
    simp [HyperClient.PullImage, hI]

/-- Witness of `PullImage_forwards_digest` on the digest example of the source
comment, with a backend that ends the pull stream at once. -/
theorem PullImage_forwards_digest_witness :
    '@' ∉ "localhost:5000/foo/bar".toList ∧ '@' ∉ "sha256:bc88".toList ∧
    (KubeHyperManager.PullImage (fun _ => .ok [RecvResult.eof])
        { Image := some { Image := some "localhost:5000/foo/bar@sha256:bc88".toList },
          Auth := none }).request
      = some { Image := "localhost:5000/foo/bar".toList, Tag := "sha256:bc88".toList,
               Auth := getHyperAuthConfig none } :=
  ⟨by decide, by decide,
    PullImage_forwards_digest (fun _ => .ok [RecvResult.eof]) none
      "localhost:5000/foo/bar@sha256:bc88".toList "localhost:5000/foo/bar".toList
      "sha256:bc88".toList [] (by decide) (by decide) (by decide) (Or.inl rfl)⟩

/-- C4 as stated fails on "foo@sha256:ab": the reference contains an '@', and the `Tag`
of the backend pull request is "sha256:ab", not the empty string. -/
theorem PullImage_tag_not_empty :
    '@' ∈ "foo@sha256:ab".toList ∧
    (parseRepositoryTag "foo@sha256:ab".toList).map Prod.snd = some "sha256:ab".toList ∧
    ((KubeHyperManager.PullImage (fun _ => .ok [RecvResult.eof])
        { Image := some { Image := some "foo@sha256:ab".toList }, Auth := none }).request).map
      types.ImagePullRequest.Tag = some "sha256:ab".toList ∧
    "sha256:ab".toList ≠ [] := by
  decide

/-! ## Image list -/

theorem listImagesLoop_eq (F : GoString) (L : List types.ImageInfo)
    (results : List kubeapi.Image) :
    KubeHyperManager.listImagesLoop F L results
      = results ++ (L.filter (fun img =>
            decide (img.Id ≠ F) && decide (F ∉ img.RepoTags))).map
          (fun img => { Id := some img.Id,
                        RepoTags := img.RepoTags,
                        RepoDigests := img.RepoDigests,
                        Size_ := some (uint64 img.VirtualSize) }) := by
  induction L generalizing results with
  | nil => simp [KubeHyperManager.listImagesLoop]
  | cons img rest ih =>
    by_cases h1 : img.Id = F
    · simp [KubeHyperManager.listImagesLoop, h1, ih]
    · by_cases h2 : F ∈ img.RepoTags
      · simp [KubeHyperManager.listImagesLoop, h1, h2, ih, utils.InList]
      · simp [KubeHyperManager.listImagesLoop, h1, h2, ih, utils.InList]

/-- C5: when the backend list call succeeds with the list `L`, `ListImages` with the
filter string `F` returns, without error, the images of `L` whose id is not `F` and
whose repository tags do not contain `F`, in the order of `L`, each with the id, the
repository tags and the repository digests of its backend image; so an image of `L`
is represented in the result iff both conditions hold. -/
theorem ListImages_filter (L : List types.ImageInfo) (F : GoString) :
    ∃ resp : kubeapi.ListImagesResponse,
      KubeHyperManager.ListImages (.ok L)
          { Filter := some { Image := some { Image := some F } } }
        = .returned (some resp, none) ∧
      resp.Images = (L.filter (fun img =>
            decide (img.Id ≠ F) && decide (F ∉ img.RepoTags))).map
          (fun img => { Id := some img.Id,
                        RepoTags := img.RepoTags,
                        RepoDigests := img.RepoDigests,
                        Size_ := some (uint64 img.VirtualSize) }) ∧
      ∀ img, img ∈ L →
        ((∃ out, out ∈ resp.Images ∧ out.Id = some img.Id ∧ out.RepoTags = img.RepoTags ∧
            out.RepoDigests = img.RepoDigests) ↔
          img.Id ≠ F ∧ F ∉ img.RepoTags) := by
  refine ⟨_, rfl, ?_, ?_⟩
  · rw [listImagesLoop_eq, List.nil_append]
  · intro img himg
    simp only [listImagesLoop_eq, List.nil_append, List.mem_map, List.mem_filter,
      Bool.and_eq_true, decide_eq_true_eq]
    constructor
    · rintro ⟨out, ⟨img2, ⟨_, hp⟩, rfl⟩, hid, htags, _⟩
      simp only [Option.some.injEq] at hid htags
      rw [← hid, ← htags]
      exact hp
    · intro hp
      exact ⟨_, ⟨img, ⟨himg, hp⟩, rfl⟩, rfl, rfl, rfl⟩

/-- Witness of `ListImages_filter`: of three backend images, the one whose id is the
filter and the one tagged with the filter are left out, the third is returned. -/
theorem ListImages_filter_witness :
    KubeHyperManager.ListImages
        (.ok [{ Id := "busybox".toList, RepoTags := [], RepoDigests := [], VirtualSize := 1 },
              { Id := "1f".toList, RepoTags := ["busybox".toList], RepoDigests := [],
                VirtualSize := 2 },
              { Id := "2a".toList, RepoTags := ["nginx".toList],
                RepoDigests := ["nginx@sha256:9c".toList], VirtualSize := 3 }])
        { Filter := some { Image := some { Image := some "busybox".toList } } }
      = .returned
          (some { Images := [{ Id := some "2a".toList, RepoTags := ["nginx".toList],
                               RepoDigests := ["nginx@sha256:9c".toList],
                               Size_ := some 3 }] },
           none) := by
  obtain ⟨resp, h1, h2, _⟩ := ListImages_filter
    [{ Id := "busybox".toList, RepoTags := [], RepoDigests := [], VirtualSize := 1 },
     { Id := "1f".toList, RepoTags := ["busybox".toList], RepoDigests := [],
       VirtualSize := 2 },
     { Id := "2a".toList, RepoTags := ["nginx".toList],
       RepoDigests := ["nginx@sha256:9c".toList], VirtualSize := 3 }]
    "busybox".toList
  rw [h1]
  obtain ⟨imgs⟩ := resp
  simp only at h2
  rw [h2]
  decide

/-! ## Auth config -/

/-- C6: for every non-nil orchestrator auth config, `getHyperAuthConfig` returns a
backend auth config in which each of the five fields is the value of the same field of
the input when that one is set and the empty string when it is unset, whatever the
other four fields are. -/
theorem getHyperAuthConfig_fields (auth : kubeapi.AuthConfig) :
    ∃ config, getHyperAuthConfig (some auth) = some config ∧
      config.Username = auth.Username.getD [] ∧
      config.Password = auth.Password.getD [] ∧
      config.Auth = auth.Auth.getD [] ∧
      config.Registrytoken = auth.RegistryToken.getD [] ∧
      config.Serveraddress = auth.ServerAddress.getD [] := by
  obtain ⟨u, p, a, s, r⟩ := auth
  cases u <;> cases p <;> cases a <;> cases s <;> cases r <;>
    exact ⟨_, rfl, rfl, rfl, rfl, rfl, rfl⟩

/-! ## Loops over the results of a blocking call -/

/-- A pass of the body that goes on to the next iteration consumes one result. -/
theorem forLoop_cons_next {ε σ α : Type} (body : ε → σ → Step σ α) (e : ε) (rest : List ε)
    (s s1 : σ) (h : body e s = .next s1) :
    forLoop body (e :: rest) s = forLoop body rest s1 := by
  simp [forLoop, h]

/-! ## Exec relay: the output-draining task -/

/-- The output-draining loop over messages followed by a clean end of stream, with a
sink that accepts every write in full: every payload is written, in order, and the
task yields nil. -/
theorem recvLoop_full (w : GoWriter) (hw : ∀ earlier p, w earlier p = ((p.length : Int), none))
    (msgs : List types.ContainerExecResponse) (written : List Bytes) :
    forLoop (HyperClient.recvBody (some w)) (msgs.map RecvResult.deliver ++ [RecvResult.eof])
        written
      = (written ++ msgs.filterMap (fun m => m.Stdout), .returned none) := by
  induction msgs generalizing written with
  | nil => simp [forLoop, HyperClient.recvBody, RecvResult.eof]
  | cons m rest ih =>
    cases hm : m.Stdout with
    | none =>
      simp [forLoop, HyperClient.recvBody, RecvResult.deliver, hm, ih]
    | some payload =>
      simp [forLoop, HyperClient.recvBody, RecvResult.deliver, hm, hw, ih]

/-- C7: for every exec session whose channel opens and takes the initial request,
with a stdout sink that accepts every write in full and a channel that delivers
finitely many messages and then the end of the stream, `ContainerExec` passes to the
stdout sink exactly the output payloads of the messages, one write per payload in the
order received, so that the content of the sink is their concatenation, and returns
nil. -/
theorem ContainerExec_relays_output (stream : HyperClient.ExecStream)
    (container tag : GoString) (command : List GoString) (tty : Bool)
    (stdin : Option GoReader) (w : GoWriter) (stderr : Option GoWriter)
    (msgs : List types.ContainerExecResponse)
    (hsend : stream.Send []
      { ContainerID := container, Command := command, Tag := tag, Tty := tty } = none)
    (hrecv : stream.recvs = msgs.map RecvResult.deliver ++ [RecvResult.eof])
    (hw : ∀ earlier p, w earlier p = ((p.length : Int), none)) :
    (HyperClient.ContainerExec (.ok stream) container tag command tty stdin (some w)
        stderr).run = .returned none ∧
    (HyperClient.ContainerExec (.ok stream) container tag command tty stdin (some w)
        stderr).writes = msgs.filterMap (fun m => m.Stdout) ∧
    ((HyperClient.ContainerExec (.ok stream) container tag command tty stdin (some w)
        stderr).writes).flatten = (msgs.filterMap (fun m => m.Stdout)).flatten := by
  have h := recvLoop_full w hw msgs []
  rw [← hrecv] at h
  simp [HyperClient.ContainerExec, hsend, h]

/-- Witness of `ContainerExec_relays_output`: the channel delivers "ab", a message
without payload and "c", then ends; the sink receives "ab" then "c". -/
theorem ContainerExec_relays_output_witness :
    (HyperClient.ContainerExec
        (.ok { Send := fun _ _ => none,
               recvs := [RecvResult.deliver { Stdout := some [97, 98] },
                         RecvResult.deliver { Stdout := none },
                         RecvResult.deliver { Stdout := some [99] },
                         RecvResult.eof] })
        "c1".toList "t".toList ["cat".toList] false none
        (some (fun _ p => ((p.length : Int), none))) none).run = .returned none ∧
    (HyperClient.ContainerExec
        (.ok { Send := fun _ _ => none,
               recvs := [RecvResult.deliver { Stdout := some [97, 98] },
                         RecvResult.deliver { Stdout := none },
                         RecvResult.deliver { Stdout := some [99] },
                         RecvResult.eof] })
        "c1".toList "t".toList ["cat".toList] false none
        (some (fun _ p => ((p.length : Int), none))) none).writes = [[97, 98], [99]] ∧
    ((HyperClient.ContainerExec
        (.ok { Send := fun _ _ => none,
               recvs := [RecvResult.deliver { Stdout := some [97, 98] },
                         RecvResult.deliver { Stdout := none },
                         RecvResult.deliver { Stdout := some [99] },
                         RecvResult.eof] })
        "c1".toList "t".toList ["cat".toList] false none
        (some (fun _ p => ((p.length : Int), none))) none).writes).flatten = [97, 98, 99] :=
  ContainerExec_relays_output
    { Send := fun _ _ => none,
      recvs := [RecvResult.deliver { Stdout := some [97, 98] },
                RecvResult.deliver { Stdout := none },
                RecvResult.deliver { Stdout := some [99] },
                RecvResult.eof] }
    "c1".toList "t".toList ["cat".toList] false none
    (fun _ p => ((p.length : Int), none)) none
    [{ Stdout := some [97, 98] }, { Stdout := none }, { Stdout := some [99] }]
    rfl rfl (fun _ _ => rfl)

/-- What the output-draining loop adds to the write log: whenever one of the added
writes reports, without error, a count other than the length of its payload, it is
the last write and the task yields the short-write error. -/
theorem recvLoop_short (w : GoWriter)
    (events : List (RecvResult types.ContainerExecResponse)) (written : List Bytes) :
    ∃ added, (forLoop (HyperClient.recvBody (some w)) events written).1 = written ++ added ∧
      ∀ a p b, added = a ++ p :: b → (w (written ++ a) p).2 = none →
        (w (written ++ a) p).1 ≠ (p.length : Int) →
        b = [] ∧ (forLoop (HyperClient.recvBody (some w)) events written).2
          = .returned (some Error.ErrShortWrite) := by
  induction events generalizing written with
  | nil =>
    refine ⟨[], by simp [forLoop], ?_⟩
    intro a p b h
    simp at h
  | cons ev rest ih =>
    unfold forLoop
    by_cases herr : ev.err ≠ none ∧ ev.err ≠ some Error.EOF
    · refine ⟨[], by simp [HyperClient.recvBody, herr], ?_⟩
      intro a p b h
      simp at h
    · cases hmsg : ev.msg with
      | none =>
        have hb : HyperClient.recvBody (some w) ev written
            = (if ev.err = some Error.EOF then .stop written (.returned none)
               else .next written) := by
          simp [HyperClient.recvBody, herr, hmsg]
        rw [hb]
        by_cases he : ev.err = some Error.EOF
        · rw [if_pos he]
          refine ⟨[], by simp, ?_⟩
          intro a p b h
          simp at h
        · rw [if_neg he]
          exact ih written
      | some m =>
        cases hout : m.Stdout with
        | none =>
          have hb : HyperClient.recvBody (some w) ev written
              = (if ev.err = some Error.EOF then .stop written (.returned none)
                 else .next written) := by
            simp [HyperClient.recvBody, herr, hmsg, hout]
          rw [hb]
          by_cases he : ev.err = some Error.EOF
          · rw [if_pos he]
            refine ⟨[], by simp, ?_⟩
            intro a p b h
            simp at h
          · rw [if_neg he]
            exact ih written
        | some payload =>
          by_cases hew : (w written payload).2 ≠ none
          · -- the write fails with an error
            refine ⟨[payload], by simp [HyperClient.recvBody, herr, hmsg, hout, hew], ?_⟩
            intro a p b h h2 _
            rcases a with _ | ⟨x, a⟩
            · simp only [List.nil_append, List.cons.injEq] at h
              rw [← h.1, List.append_nil] at h2
              exact absurd h2 hew
            · simp at h
          · by_cases hnw : (w written payload).1 ≠ (payload.length : Int)
            · -- the write is short
              refine ⟨[payload],
                by simp [HyperClient.recvBody, herr, hmsg, hout, hew, hnw], ?_⟩
              intro a p b h _ _
              rcases a with _ | ⟨x, a⟩
              · simp only [List.nil_append, List.cons.injEq] at h
                exact ⟨h.2.symm, by simp [HyperClient.recvBody, herr, hmsg, hout, hew, hnw]⟩
              · simp at h
            · -- the write is accepted in full
              have hb : HyperClient.recvBody (some w) ev written
                  = (if ev.err = some Error.EOF then
                      .stop (written ++ [payload]) (.returned none)
                     else .next (written ++ [payload])) := by
                simp [HyperClient.recvBody, herr, hmsg, hout, hew, hnw]
              rw [hb]
              by_cases he : ev.err = some Error.EOF
              · refine ⟨[payload], by simp [he], ?_⟩
                intro a p b h _ h3
                rcases a with _ | ⟨x, a⟩
                · simp only [List.nil_append, List.cons.injEq] at h
                  rw [← h.1, List.append_nil] at h3
                  exact absurd h3 hnw
                · simp at h
              · obtain ⟨added, h1, h2⟩ := ih (written ++ [payload])
                refine ⟨payload :: added, by simp [he, h1], ?_⟩
                intro a p b h h3 h4
                rcases a with _ | ⟨x, a⟩
                · simp only [List.nil_append, List.cons.injEq] at h
                  rw [← h.1, List.append_nil] at h4
                  exact absurd h4 hnw
                · simp only [List.cons_append, List.cons.injEq] at h
                  have e : written ++ x :: a = written ++ [payload] ++ a := by
                    rw [h.1]; simp
                  rw [e] at h3 h4
                  simpa [he] using h2 a p b h.2 h3 h4

/-- C8: in every exec session, if the sequence of `Write` calls made on the stdout
sink is `a`, then the payload `p`, then `b`, and the write of `p` reports, without
error, fewer bytes than the length of `p`, then `ContainerExec` returns
`io.ErrShortWrite` and `b` is empty: no write is attempted after the short one,
whatever the channel still holds. -/
theorem ContainerExec_short_write (backend : Except Error HyperClient.ExecStream)
    (container tag : GoString) (command : List GoString) (tty : Bool)
    (stdin : Option GoReader) (w : GoWriter) (stderr : Option GoWriter)
    (a : List Bytes) (p : Bytes) (b : List Bytes)
    (hwrites : (HyperClient.ContainerExec backend container tag command tty stdin (some w)
        stderr).writes = a ++ p :: b)
    (herr : (w a p).2 = none) (hshort : (w a p).1 < (p.length : Int)) :
    (HyperClient.ContainerExec backend container tag command tty stdin (some w)
        stderr).run = .returned (some Error.ErrShortWrite) ∧ b = [] := by
  cases backend with
  | error e => simp [HyperClient.ContainerExec] at hwrites
  | ok stream =>
    cases hsend : stream.Send []
        { ContainerID := container, Command := command, Tag := tag, Tty := tty } with
    | some e => simp [HyperClient.ContainerExec, hsend] at hwrites
    | none =>
      obtain ⟨added, h1, h2⟩ := recvLoop_short w stream.recvs []
      simp only [HyperClient.ContainerExec, hsend, Option.isSome_some, true_or, if_true]
        at hwrites ⊢
      rw [h1, List.nil_append] at hwrites
      have h3 := h2 a p b hwrites (by simpa using herr) (by simpa using ne_of_lt hshort)
      exact ⟨h3.2, h3.1⟩

/-- Witness of `ContainerExec_short_write`: the sink takes the first payload in full
and reports one byte less than the length of the second; the third message of the
channel is never written. -/
theorem ContainerExec_short_write_witness :
    (HyperClient.ContainerExec
        (.ok { Send := fun _ _ => none,
               recvs := [RecvResult.deliver { Stdout := some [97, 98] },
                         RecvResult.deliver { Stdout := some [99, 100] },
                         RecvResult.deliver { Stdout := some [101, 102] },
                         RecvResult.eof] })
        "c1".toList "t".toList ["cat".toList] false none
        (some (fun earlier p =>
          if earlier.length = 1 then ((p.length : Int) - 1, none) else ((p.length : Int), none)))
        none).writes = [[97, 98]] ++ [99, 100] :: [] ∧
    (HyperClient.ContainerExec
        (.ok { Send := fun _ _ => none,
               recvs := [RecvResult.deliver { Stdout := some [97, 98] },
                         RecvResult.deliver { Stdout := some [99, 100] },
                         RecvResult.deliver { Stdout := some [101, 102] },
                         RecvResult.eof] })
        "c1".toList "t".toList ["cat".toList] false none
        (some (fun earlier p =>
          if earlier.length = 1 then ((p.length : Int) - 1, none) else ((p.length : Int), none)))
        none).run = .returned (some Error.ErrShortWrite) :=
  ⟨by decide,
    (ContainerExec_short_write
      (.ok { Send := fun _ _ => none,
             recvs := [RecvResult.deliver { Stdout := some [97, 98] },
                       RecvResult.deliver { Stdout := some [99, 100] },
                       RecvResult.deliver { Stdout := some [101, 102] },
                       RecvResult.eof] })
      "c1".toList "t".toList ["cat".toList] false none
      (fun earlier p =>
        if earlier.length = 1 then ((p.length : Int) - 1, none) else ((p.length : Int), none))
      none [[97, 98]] [99, 100] [] (by decide) (by decide) (by decide)).1⟩

/-- C9 fails on the code: with the stderr sink alone and a channel that delivers one
message with an output payload and then the end of the stream, the output-draining
task calls `Write` on the nil stdout sink and panics, where the same session with a
stdout sink returns nil. -/
theorem ContainerExec_stderr_only_panics :
    (HyperClient.ContainerExec
        (.ok { Send := fun _ _ => none,
               recvs := [RecvResult.deliver { Stdout := some [120] }, RecvResult.eof] })
        "c1".toList "t".toList ["ls".toList] false none
        none (some (fun _ p => ((p.length : Int), none)))).run = .panicked ∧
    (HyperClient.ContainerExec
        (.ok { Send := fun _ _ => none,
               recvs := [RecvResult.deliver { Stdout := some [120] }, RecvResult.eof] })
        "c1".toList "t".toList ["ls".toList] false none
        (some (fun _ p => ((p.length : Int), none))) none).run = .returned none := by
  decide

/-! ## Log retrieval -/

/-- The log loop over chunks followed by a clean end of stream, follow disabled: it
returns the buffer with every chunk appended in order. -/
theorem logsLoop_eof (chunks : List Bytes) (ret : Bytes) :
    forLoop (HyperClient.logsBody false)
        (chunks.map (fun c => RecvResult.deliver { Log := c }) ++ [RecvResult.eof]) ret
      = (ret ++ chunks.flatten, .returned (some (ret ++ chunks.flatten), none)) := by
  induction chunks generalizing ret with
  | nil => simp [forLoop, HyperClient.logsBody, RecvResult.eof]
  | cons c rest ih =>
    have hb : HyperClient.logsBody false (RecvResult.deliver { Log := c }) ret
        = .next (ret ++ c) := by
      simp [HyperClient.logsBody, RecvResult.deliver]
    rw [List.map_cons, List.cons_append, forLoop_cons_next _ _ _ _ _ hb, ih,
      List.flatten_cons, List.append_assoc]

/-- The log loop over chunks followed by a receive that fails with an error other
than the end of stream: it returns that error and no buffer. -/
theorem logsLoop_fail (chunks : List Bytes) (e : Error) (he : e ≠ Error.EOF)
    (rest : List (RecvResult types.ContainerLogsResponse)) (ret : Bytes) :
    (forLoop (HyperClient.logsBody false)
        (chunks.map (fun c => RecvResult.deliver { Log := c }) ++ RecvResult.fail e :: rest)
        ret).2
      = .returned (none, some e) := by
  induction chunks generalizing ret with
  | nil => simp [forLoop, HyperClient.logsBody, RecvResult.fail, he]
  | cons c cs ih =>
    have hb : HyperClient.logsBody false (RecvResult.deliver { Log := c }) ret
        = .next (ret ++ c) := by
      simp [HyperClient.logsBody, RecvResult.deliver]
    rw [List.map_cons, List.cons_append, forLoop_cons_next _ _ _ _ _ hb, ih]

/-- C10: when the backend log stream delivers the chunks `c1..cn` and then the end of
the stream, `GetContainerLogs` returns the buffer `c1 ++ ... ++ cn` and no error; when
instead, after some chunks, a receive fails with an error other than the end of the
stream, it returns that error and no buffer.  In both cases the call returns. -/
theorem GetContainerLogs_collects (container : GoString) (chunks : List Bytes) :
    HyperClient.GetContainerLogs
        (fun _ => .ok (chunks.map (fun c => RecvResult.deliver { Log := c })
          ++ [RecvResult.eof])) container
      = .returned (some chunks.flatten, none) ∧
    ∀ (e : Error) (rest : List (RecvResult types.ContainerLogsResponse)), e ≠ Error.EOF →
      HyperClient.GetContainerLogs
          (fun _ => .ok (chunks.map (fun c => RecvResult.deliver { Log := c })
            ++ RecvResult.fail e :: rest)) container
        = .returned (none, some e) := by
  constructor
  · simp [HyperClient.GetContainerLogs, logsLoop_eof]
  · intro e rest he
    simp [HyperClient.GetContainerLogs, logsLoop_fail chunks e he rest]

/-- Witness of `GetContainerLogs_collects`: the chunks "a", "b", "c" give "abc" when
the stream ends, and the error when the next receive fails. -/
theorem GetContainerLogs_collects_witness :
    HyperClient.GetContainerLogs
        (fun _ => .ok [RecvResult.deliver { Log := [97] }, RecvResult.deliver { Log := [98] },
          RecvResult.deliver { Log := [99] }, RecvResult.eof]) "c1".toList
      = .returned (some [97, 98, 99], none) ∧
    Error.other "transport is closing" ≠ Error.EOF ∧
    HyperClient.GetContainerLogs
        (fun _ => .ok [RecvResult.deliver { Log := [97] }, RecvResult.deliver { Log := [98] },
          RecvResult.deliver { Log := [99] }, RecvResult.fail (Error.other "transport is closing"),
          RecvResult.eof]) "c1".toList
      = .returned (none, some (Error.other "transport is closing")) :=
  ⟨(GetContainerLogs_collects "c1".toList [[97], [98], [99]]).1,
    by decide,
    (GetContainerLogs_collects "c1".toList [[97], [98], [99]]).2
      (Error.other "transport is closing") [RecvResult.eof] (by decide)⟩

/-! ## Image sizes -/

/-- On the non-negative `int64` values the conversion `uint64` keeps the integer. -/
theorem uint64_of_nonneg (v : Int) (h0 : 0 ≤ v) (h1 : v < 2 ^ 63) :
    ((uint64 v : Nat) : Int) = v := by
  unfold uint64
  rw [Int.toNat_of_nonneg (Int.emod_nonneg v (by norm_num))]
  exact Int.emod_eq_of_lt h0 (by omega)

/-- On the negative `int64` values the conversion `uint64` adds `2^64`. -/
theorem uint64_of_neg (v : Int) (h0 : v < 0) (h1 : -2 ^ 63 ≤ v) :
    ((uint64 v : Nat) : Int) = v + 2 ^ 64 := by
  unfold uint64
  rw [Int.toNat_of_nonneg (Int.emod_nonneg v (by norm_num))]
  rw [← Int.add_emod_self]
  exact Int.emod_eq_of_lt (by omega) (by omega)

/-- C11, as amended: every image returned by `ListImages` stands for a backend image
and reports as size the `uint64` conversion of that image's `int64` virtual size; the
reported size denotes the same integer as the virtual size whenever the virtual size
is non-negative, and denotes the virtual size plus `2^64` when it is negative. -/
theorem ListImages_size (L : List types.ImageInfo) (F : GoString) :
    ∃ resp : kubeapi.ListImagesResponse,
      KubeHyperManager.ListImages (.ok L)
          { Filter := some { Image := some { Image := some F } } }
        = .returned (some resp, none) ∧
      ∀ out, out ∈ resp.Images →
        ∃ img, img ∈ L ∧ out.Id = some img.Id ∧
          out.Size_ = some (uint64 img.VirtualSize) ∧
          (0 ≤ img.VirtualSize → img.VirtualSize < 2 ^ 63 →
            ((uint64 img.VirtualSize : Nat) : Int) = img.VirtualSize) ∧
          (img.VirtualSize < 0 → -2 ^ 63 ≤ img.VirtualSize →
            ((uint64 img.VirtualSize : Nat) : Int) = img.VirtualSize + 2 ^ 64) := by
  refine ⟨_, rfl, ?_⟩
  intro out hout
  simp only [listImagesLoop_eq, List.nil_append, List.mem_map, List.mem_filter] at hout
  obtain ⟨img, ⟨himg, _⟩, rfl⟩ := hout
  exact ⟨img, himg, rfl, rfl, uint64_of_nonneg img.VirtualSize,
    uint64_of_neg img.VirtualSize⟩

/-- Witness of `ListImages_size`: a backend image of virtual size 4096 is returned
with the size 4096. -/
theorem ListImages_size_witness :
    KubeHyperManager.ListImages
        (.ok [{ Id := "2a".toList, RepoTags := ["nginx".toList], RepoDigests := [],
                VirtualSize := 4096 }])
        { Filter := some { Image := some { Image := some "busybox".toList } } }
      = .returned
          (some { Images := [{ Id := some "2a".toList, RepoTags := ["nginx".toList],
                               RepoDigests := [], Size_ := some 4096 }] },
           none) ∧
    (0 : Int) ≤ 4096 ∧ (4096 : Int) < 2 ^ 63 ∧ ((uint64 4096 : Nat) : Int) = 4096 := by
  obtain ⟨resp, h1, h2⟩ := ListImages_size
    [{ Id := "2a".toList, RepoTags := ["nginx".toList], RepoDigests := [],
       VirtualSize := 4096 }]
    "busybox".toList
  refine ⟨by decide, by decide, by decide, ?_⟩
  have hmem : (⟨some "2a".toList, ["nginx".toList], [], some 4096⟩ : kubeapi.Image)
      ∈ resp.Images := by
    have e : KubeHyperManager.ListImages
        (.ok [{ Id := "2a".toList, RepoTags := ["nginx".toList], RepoDigests := [],
                VirtualSize := 4096 }])
        { Filter := some { Image := some { Image := some "busybox".toList } } }
      = .returned
          (some { Images := [{ Id := some "2a".toList, RepoTags := ["nginx".toList],
                               RepoDigests := [], Size_ := some 4096 }] },
           none) := by decide
    rw [e] at h1
    simp only [Run.returned.injEq, Prod.mk.injEq, Option.some.injEq, and_true] at h1
    rw [← h1]
    simp
  obtain ⟨img, himg, _, _, hpos, _⟩ := h2 _ hmem
  simp only [List.mem_singleton] at himg
  subst himg
  exact hpos (by decide) (by decide)

/-- C11 as stated fails on a backend image of virtual size -1: the image is returned
with the size 18446744073709551615, which is not the integer -1. -/
theorem ListImages_size_negative :
    KubeHyperManager.ListImages
        (.ok [{ Id := "2a".toList, RepoTags := [], RepoDigests := [], VirtualSize := -1 }])
        { Filter := some { Image := some { Image := some "busybox".toList } } }
      = .returned
          (some { Images := [{ Id := some "2a".toList, RepoTags := [], RepoDigests := [],
                               Size_ := some 18446744073709551615 }] },
           none) ∧
    -2 ^ 63 ≤ (-1 : Int) ∧ (-1 : Int) < 2 ^ 63 ∧
    ((18446744073709551615 : Nat) : Int) ≠ -1 := by
  decide

/-! ## Exec relay: the input-forwarding task -/

/-- The input-forwarding loop over reads without error followed by a read that
reports the end of input, when every send succeeds: one message per read of a positive
count, in read order, and the task yields nil. -/
theorem sendLoop_eof
    (Send : List types.ContainerExecRequest → types.ContainerExecRequest → Option Error)
    (hS : ∀ sent m, Send sent m = none) (body : List ReadResult) (last : ReadResult)
    (rest : List ReadResult) (hbody : ∀ r, r ∈ body → r.err = none ∧ r.nr ≤ 32)
    (hlast : last.err = some Error.EOF ∧ last.nr ≤ 32)
    (sent : List types.ContainerExecRequest) :
    forLoop (HyperClient.sendBody Send) (body ++ last :: rest) sent
      = (sent ++ ((body ++ [last]).filter (fun r => decide (r.nr > 0))).map
            (fun r => { Stdin := (List.ofFn r.buf).take r.nr.toNat }),
         .returned none) := by
  induction body generalizing sent with
  | nil =>
    have h32 : ¬ last.nr > 32 := by omega
    by_cases hpos : last.nr > 0
    · simp [forLoop, HyperClient.sendBody, hpos, h32, hS, hlast.1]
    · simp [forLoop, HyperClient.sendBody, hpos, hlast.1]
  | cons r rs ih =>
    have hr := hbody r (by simp)
    have hrs : ∀ x, x ∈ rs → x.err = none ∧ x.nr ≤ 32 :=
      fun x hx => hbody x (by simp [hx])
    have h32 : ¬ r.nr > 32 := by omega
    by_cases hpos : r.nr > 0
    · have hb : HyperClient.sendBody Send r sent
          = .next (sent ++ [{ Stdin := (List.ofFn r.buf).take r.nr.toNat }]) := by
        simp [HyperClient.sendBody, hpos, h32, hS, hr.1]
      rw [List.cons_append, forLoop_cons_next _ _ _ _ _ hb, ih hrs]
      simp [hpos]
    · have hb : HyperClient.sendBody Send r sent = .next sent := by
        simp [HyperClient.sendBody, hpos, hr.1]
      rw [List.cons_append, forLoop_cons_next _ _ _ _ _ hb, ih hrs]
      simp [hpos]

/-- Leaving out the elements that contribute nothing does not change a
concatenation. -/
theorem flatten_map_filter {α β : Type} (p : α → Bool) (f : α → List β) (l : List α)
    (h : ∀ a, p a = false → f a = []) :
    ((l.filter p).map f).flatten = (l.map f).flatten := by
  induction l with
  | nil => rfl
  | cons a as ih =>
    cases hp : p a with
    | true => rw [List.filter_cons_of_pos hp, List.map_cons, List.map_cons,
        List.flatten_cons, List.flatten_cons, ih]
    | false => rw [List.filter_cons_of_neg (by simp [hp]), List.map_cons,
        List.flatten_cons, h a hp, List.nil_append, ih]

/-- Reads of a count that is not positive yield no byte, so leaving them out does not
change the bytes read. -/
theorem flatten_positive_reads (reads : List ReadResult) :
    ((reads.filter (fun r => decide (r.nr > 0))).map
        (fun r => (List.ofFn r.buf).take r.nr.toNat)).flatten
      = (reads.map (fun r => (List.ofFn r.buf).take r.nr.toNat)).flatten := by
  apply flatten_map_filter
  intro r hr
  have hpos : ¬ r.nr > 0 := by simpa using hr
  have h0 : r.nr.toNat = 0 := by omega
  rw [h0, List.take_zero]


/-- The send side of a session that a panic of the output-draining task does not kill:
the initial request and the sends of the input-forwarding task in order, then the
deferred `CloseSend` unless the task stays blocked. -/
theorem ContainerExec_channel_alive (stream : HyperClient.ExecStream)
    (container tag : GoString) (command : List GoString) (tty : Bool)
    (stdout stderr : Option GoWriter) (rd : GoReader)
    (hreq : stream.Send []
      { ContainerID := container, Command := command, Tag := tag, Tty := tty } = none)
    (halive : (HyperClient.ContainerExec (.ok stream) container tag command tty (some rd)
        stdout stderr).run ≠ .panicked) :
    (HyperClient.ContainerExec (.ok stream) container tag command tty (some rd)
        stdout stderr).channel
      = (match (forLoop (HyperClient.sendBody stream.Send) rd
            [{ ContainerID := container, Command := command, Tag := tag, Tty := tty }]).2 with
          | .blocked => some ((forLoop (HyperClient.sendBody stream.Send) rd
              [{ ContainerID := container, Command := command, Tag := tag,
                 Tty := tty }]).1.map .send)
          | _ => some ((forLoop (HyperClient.sendBody stream.Send) rd
              [{ ContainerID := container, Command := command, Tag := tag,
                 Tty := tty }]).1.map .send ++ [.closeSend])) ∧
    (HyperClient.ContainerExec (.ok stream) container tag command tty (some rd)
        stdout stderr).input
      = .ended (forLoop (HyperClient.sendBody stream.Send) rd
          [{ ContainerID := container, Command := command, Tag := tag, Tty := tty }]).2 := by
  by_cases hs : stdout.isSome ∨ stderr.isSome
  · cases hR : forLoop (HyperClient.recvBody stdout) stream.recvs [] with
    | mk written r =>
      have hr : r ≠ .panicked := by
        intro h
        apply halive
        simp [HyperClient.ContainerExec, hreq, hs, hR, h]
      cases r with
      | returned e => simp [HyperClient.ContainerExec, hreq, hs, hR]
      | panicked => exact absurd rfl hr
      | blocked => simp [HyperClient.ContainerExec, hreq, hs, hR]
  · simp [HyperClient.ContainerExec, hreq, hs]

/-- The deferred close is the only close: a trace made of sends and one final
`CloseSend` holds `CloseSend` once. -/
theorem count_closeSend (msgs : List types.ContainerExecRequest) :
    List.count HyperClient.ChannelOp.closeSend
      (msgs.map HyperClient.ChannelOp.send ++ [HyperClient.ChannelOp.closeSend]) = 1 := by
  have h0 : List.count HyperClient.ChannelOp.closeSend
      (msgs.map HyperClient.ChannelOp.send) = 0 := by
    apply List.count_eq_zero_of_not_mem
    intro h
    obtain ⟨m, _, hm⟩ := List.mem_map.mp h
    cases hm
  rw [List.count_append, h0, List.count_singleton_self]

/-- C12: for every local input source whose successive reads, each of a count within
the 32-byte buffer, yield the bytes `B` and then report the end of input, on a channel
where every send succeeds, in a session that a panic of the output-draining task does
not kill, the operations of `ContainerExec` on the send side of the channel are, in
this order: the initial request, one input message per read of a positive count in
read order, and one `CloseSend` after the last of them.  Each input message carries a
non-empty chunk of at most 32 bytes, the chunks concatenated in send order are `B`, a
read of zero bytes sends nothing, `CloseSend` occurs exactly once, and the task ends by
returning nil. -/
theorem ContainerExec_forwards_input (stream : HyperClient.ExecStream)
    (container tag : GoString) (command : List GoString) (tty : Bool)
    (stdout stderr : Option GoWriter) (body : List ReadResult) (last : ReadResult)
    (rest : List ReadResult)
    (hsend : ∀ sent m, stream.Send sent m = none)
    (hbody : ∀ r, r ∈ body → r.err = none ∧ r.nr ≤ 32)
    (hlast : last.err = some Error.EOF ∧ last.nr ≤ 32)
    (halive : (HyperClient.ContainerExec (.ok stream) container tag command tty
        (some (body ++ last :: rest)) stdout stderr).run ≠ .panicked) :
    ∃ msgs : List types.ContainerExecRequest,
      (HyperClient.ContainerExec (.ok stream) container tag command tty
          (some (body ++ last :: rest)) stdout stderr).channel
        = some (HyperClient.ChannelOp.send
              { ContainerID := container, Command := command, Tag := tag, Tty := tty }
            :: (msgs.map HyperClient.ChannelOp.send ++ [HyperClient.ChannelOp.closeSend])) ∧
      msgs = ((body ++ [last]).filter (fun r => decide (r.nr > 0))).map
          (fun r => { Stdin := (List.ofFn r.buf).take r.nr.toNat }) ∧
      (∀ m, m ∈ msgs → m.Stdin ≠ [] ∧ m.Stdin.length ≤ 32) ∧
      (msgs.map (fun m => m.Stdin)).flatten
        = ((body ++ [last]).map (fun r => (List.ofFn r.buf).take r.nr.toNat)).flatten ∧
      List.count HyperClient.ChannelOp.closeSend
        (HyperClient.ChannelOp.send
            { ContainerID := container, Command := command, Tag := tag, Tty := tty }
          :: (msgs.map HyperClient.ChannelOp.send ++ [HyperClient.ChannelOp.closeSend])) = 1 ∧
      (HyperClient.ContainerExec (.ok stream) container tag command tty
          (some (body ++ last :: rest)) stdout stderr).input = .ended (.returned none) := by
  have hloop := sendLoop_eof stream.Send hsend body last rest hbody hlast
    [{ ContainerID := container, Command := command, Tag := tag, Tty := tty }]
  obtain ⟨hch, hin⟩ := ContainerExec_channel_alive stream container tag command tty
    stdout stderr (body ++ last :: rest) (hsend _ _) halive
  rw [hloop] at hch hin
  refine ⟨_, ?_, rfl, ?_, ?_, ?_, hin⟩
  · rw [hch]
    simp
  · intro m hm
    simp only [List.mem_map, List.mem_filter, decide_eq_true_eq] at hm
    obtain ⟨r, ⟨hr, hpos⟩, rfl⟩ := hm
    have h32 : r.nr ≤ 32 := by
      rcases List.mem_append.mp hr with h | h
      · exact (hbody r h).2
      · simp only [List.mem_singleton] at h
        rw [h]
        exact hlast.2
    have hlen : ((List.ofFn r.buf).take r.nr.toNat).length = r.nr.toNat := by
      rw [List.length_take, List.length_ofFn]
      omega
    constructor
    · intro h
      have := congrArg List.length h
      simp only [List.length_nil] at this
      omega
    · show ((List.ofFn r.buf).take r.nr.toNat).length ≤ 32
      omega
  · rw [List.map_map]
    exact flatten_positive_reads (body ++ [last])
  · rw [List.count_cons, count_closeSend]
    simp

/-- Witness of `ContainerExec_forwards_input`: the input source yields "ab", then a
read of zero bytes, then "c" together with the end of input, while the stdout sink
takes an output payload in full; the send side sees the initial request, "ab", "c" and
then the close. -/
theorem ContainerExec_forwards_input_witness :
    (∀ r : ReadResult,
      r ∈ [{ nr := 2, err := none, buf := fun i => if i.val = 0 then 97 else 98 },
           { nr := 0, err := none, buf := fun _ => 0 }] → r.err = none ∧ r.nr ≤ 32) ∧
    (HyperClient.ContainerExec
        (.ok { Send := fun _ _ => none,
               recvs := [RecvResult.deliver { Stdout := some [120] }, RecvResult.eof] })
        "c1".toList "t".toList ["cat".toList] false
        (some ([{ nr := 2, err := none, buf := fun i => if i.val = 0 then 97 else 98 },
                { nr := 0, err := none, buf := fun _ => 0 }]
          ++ { nr := 1, err := some Error.EOF, buf := fun _ => 99 } :: []))
        (some (fun _ p => ((p.length : Int), none))) none).run ≠ .panicked ∧
    (HyperClient.ContainerExec
        (.ok { Send := fun _ _ => none,
               recvs := [RecvResult.deliver { Stdout := some [120] }, RecvResult.eof] })
        "c1".toList "t".toList ["cat".toList] false
        (some ([{ nr := 2, err := none, buf := fun i => if i.val = 0 then 97 else 98 },
                { nr := 0, err := none, buf := fun _ => 0 }]
          ++ { nr := 1, err := some Error.EOF, buf := fun _ => 99 } :: []))
        (some (fun _ p => ((p.length : Int), none))) none).channel
      = some [.send { ContainerID := "c1".toList, Command := ["cat".toList],
                      Tag := "t".toList, Tty := false },
              .send { Stdin := [97, 98] }, .send { Stdin := [99] }, .closeSend] ∧
    (HyperClient.ContainerExec
        (.ok { Send := fun _ _ => none,
               recvs := [RecvResult.deliver { Stdout := some [120] }, RecvResult.eof] })
        "c1".toList "t".toList ["cat".toList] false
        (some ([{ nr := 2, err := none, buf := fun i => if i.val = 0 then 97 else 98 },
                { nr := 0, err := none, buf := fun _ => 0 }]
          ++ { nr := 1, err := some Error.EOF, buf := fun _ => 99 } :: []))
        (some (fun _ p => ((p.length : Int), none))) none).input
      = .ended (.returned none) := by
  have hbody : ∀ r : ReadResult,
      r ∈ [{ nr := 2, err := none, buf := fun i => if i.val = 0 then 97 else 98 },
           { nr := 0, err := none, buf := fun _ => 0 }] → r.err = none ∧ r.nr ≤ 32 := by
    intro r hr
    simp only [List.mem_cons, List.mem_singleton, List.not_mem_nil, or_false] at hr
    rcases hr with h | h <;> subst h <;> exact ⟨rfl, by decide⟩
  have halive : (HyperClient.ContainerExec
        (.ok { Send := fun _ _ => none,
               recvs := [RecvResult.deliver { Stdout := some [120] }, RecvResult.eof] })
        "c1".toList "t".toList ["cat".toList] false
        (some ([{ nr := 2, err := none, buf := fun i => if i.val = 0 then 97 else 98 },
                { nr := 0, err := none, buf := fun _ => 0 }]
          ++ { nr := 1, err := some Error.EOF, buf := fun _ => 99 } :: []))
        (some (fun _ p => ((p.length : Int), none))) none).run ≠ .panicked := by
    decide
  obtain ⟨msgs, h1, h2, _, _, _, h6⟩ := ContainerExec_forwards_input
    { Send := fun _ _ => none,
      recvs := [RecvResult.deliver { Stdout := some [120] }, RecvResult.eof] }
    "c1".toList "t".toList ["cat".toList] false
    (some (fun _ p => ((p.length : Int), none))) none
    [{ nr := 2, err := none, buf := fun i => if i.val = 0 then 97 else 98 },
     { nr := 0, err := none, buf := fun _ => 0 }]
    { nr := 1, err := some Error.EOF, buf := fun _ => 99 } []
    (fun _ _ => rfl) hbody ⟨rfl, by decide⟩ halive
  refine ⟨hbody, halive, ?_, h6⟩
  rw [h1, h2]
  decide

/-- The send side of the stderr-only session whose output-draining task panics: the
process is killed, and the model leaves undetermined how far the input-forwarding task
gets. -/
theorem ContainerExec_killed_session :
    (HyperClient.ContainerExec
        (.ok { Send := fun _ _ => none,
               recvs := [RecvResult.deliver { Stdout := some [120] }, RecvResult.eof] })
        "c1".toList "t".toList ["cat".toList] false
        (some [{ nr := 1, err := some Error.EOF, buf := fun _ => 99 }])
        none (some (fun _ p => ((p.length : Int), none)))).run = .panicked ∧
    (HyperClient.ContainerExec
        (.ok { Send := fun _ _ => none,
               recvs := [RecvResult.deliver { Stdout := some [120] }, RecvResult.eof] })
        "c1".toList "t".toList ["cat".toList] false
        (some [{ nr := 1, err := some Error.EOF, buf := fun _ => 99 }])
        none (some (fun _ p => ((p.length : Int), none)))).channel = none ∧
    (HyperClient.ContainerExec
        (.ok { Send := fun _ _ => none,
               recvs := [RecvResult.deliver { Stdout := some [120] }, RecvResult.eof] })
        "c1".toList "t".toList ["cat".toList] false
        (some [{ nr := 1, err := some Error.EOF, buf := fun _ => 99 }])
        none (some (fun _ p => ((p.length : Int), none)))).input = .killed := by
  decide
